import Mathlib

/-!
Verification of the AMI backup retention program (`backup_func.py`).

The retention engine is `BackupSet.remove_old_backups`, embedded here as the
pure function `removeOldBackups`: it takes the policy constants, `today`, and
the list of images sorted ascending by `created_at`, and returns the pair
(kept images, removed images), the second component listing the images passed
to the deletion callback, in call order.
-/

namespace AmiBackup

/-- One backup record as built by `get_images`: `{'id': ..., 'created_at': ...}`.
Dates are modelled as integer day numbers; ids as naturals. -/
structure Image where
  id : Nat
  createdAt : Int
deriving DecidableEq, Repr

/-- `(self.today - image['created_at']).days` — the age in days of a backup. -/
def ageOf (today : Int) (b : Image) : Int := today - b.createdAt

/-- `BackupSet.MAX_ORDER` from the source. -/
def MAX_ORDER : Nat := 6

/-- `BackupSet.DAYS_TO_KEEP_BACKUPS` from the source. -/
def DAYS_TO_KEEP_BACKUPS : Int := 365

/-- The shared shape of the two cursor loops `while self.backup_days_ago > bound`:
splits the list into the maximal prefix of images with age strictly above
`bound` and the remaining suffix.  Used for the skip loop (lines 162-164,
prefix is kept) and for the inner removal loop of the bucket pass
(lines 173-175, prefix is removed). -/
def spanOlder (today bound : Int) : List Image → List Image × List Image
  | [] => ([], [])
  | x :: xs =>
    if bound < ageOf today x then
      (x :: (spanOlder today bound xs).1, (spanOlder today bound xs).2)
    else ([], x :: xs)

/-- Lines 156-158: `while backup_days_ago > DAYS_TO_KEEP_BACKUPS and
len(images) - backup_num >= MAX_ORDER: _remove_and_inc()`.  The length of the
current suffix is exactly `len(self.images) - self.backup_num`.  Returns
(removed prefix, remaining suffix). -/
def pruneCeiling (maxOrder : Nat) (daysToKeep today : Int) : List Image → List Image × List Image
  | [] => ([], [])
  | x :: xs =>
    if daysToKeep < ageOf today x ∧ maxOrder ≤ (x :: xs).length then
      (x :: (pruneCeiling maxOrder daysToKeep today xs).1,
       (pruneCeiling maxOrder daysToKeep today xs).2)
    else ([], x :: xs)

/-- Lines 167-175: `for n in range(MAX_ORDER, 1, -1)` with
`lower_bound = pow(2, n - 1)`; the first argument is the current loop value
`n` (levels `n ≥ 2` act, levels `0`, `1` mean the loop is over and the rest of
the cursor's list is left untouched).  Returns (kept, removed). -/
def buckets (today : Int) : Nat → List Image → List Image × List Image
  | n+2, x :: xs =>
    if (2:Int) ^ (n+1) < ageOf today x then
      (x :: (buckets today (n+1) (spanOlder today ((2:Int) ^ (n+1)) xs).2).1,
       (spanOlder today ((2:Int) ^ (n+1)) xs).1
         ++ (buckets today (n+1) (spanOlder today ((2:Int) ^ (n+1)) xs).2).2)
    else buckets today (n+1) (x :: xs)
  | _+2, [] => ([], [])
  | 0, l => (l, [])
  | 1, l => (l, [])

/-- `BackupSet.remove_old_backups` (lines 150-175), with the two class
constants as explicit parameters.  Result: (kept images, removed images),
the removed list in deletion-callback call order. -/
def removeOldBackups (maxOrder : Nat) (daysToKeep today : Int) (imgs : List Image) :
    List Image × List Image :=
  if imgs.length < maxOrder then (imgs, [])
  else
    ((spanOlder today ((2:Int) ^ maxOrder) (pruneCeiling maxOrder daysToKeep today imgs).2).1
       ++ (buckets today maxOrder
            (spanOlder today ((2:Int) ^ maxOrder)
              (pruneCeiling maxOrder daysToKeep today imgs).2).2).1,
     (pruneCeiling maxOrder daysToKeep today imgs).1
       ++ (buckets today maxOrder
            (spanOlder today ((2:Int) ^ maxOrder)
              (pruneCeiling maxOrder daysToKeep today imgs).2).2).2)

/-- The precondition stated by the spec for the engine's input: sorted
ascending (non-decreasing) by `created_at`. -/
def sortedByCreated (l : List Image) : Prop :=
  l.Pairwise (fun a b => a.createdAt ≤ b.createdAt)

/-- Boolean test for membership of bucket `n`: age in `(2^(n-1), 2^n]`. -/
def inBucket (today : Int) (n : Nat) (b : Image) : Bool :=
  decide ((2:Int) ^ (n-1) < ageOf today b) && decide (ageOf today b ≤ (2:Int) ^ n)

/-- Ages are non-increasing along the list; equivalent to `sortedByCreated`. -/
def agesSorted (today : Int) (l : List Image) : Prop :=
  l.Pairwise (fun a c => ageOf today c ≤ ageOf today a)

/-- The 12-image history of the spec's concrete scenario, oldest first, for
`today = 1000`: ages `[400, 200, 80, 40, 20, 10, 5, 4, 3, 2, 1, 0]`. -/
def sampleImages : List Image :=
  [⟨1, 600⟩, ⟨2, 800⟩, ⟨3, 920⟩, ⟨4, 960⟩, ⟨5, 980⟩, ⟨6, 990⟩,
   ⟨7, 995⟩, ⟨8, 996⟩, ⟨9, 997⟩, ⟨10, 998⟩, ⟨11, 999⟩, ⟨12, 1000⟩]

/-- One record of the `describe_images` response, as read by `get_images`
(lines 186-197): the `Public` flag, the `Name`, the `ImageId` and the
creation date already reduced to a day number. -/
structure RawImage where
  isPublic : Bool
  name : List Char
  imageId : Nat
  createdAt : Int
deriving DecidableEq, Repr

/-- Python `name.rfind('-')`: index of the last occurrence of `'-'`,
`none` when the character is absent. -/
def rfindDash : List Char → Option Nat
  | [] => none
  | c :: cs =>
    match rfindDash cs with
    | some i => some (i + 1)
    | none => if c = '-' then some 0 else none

/-- The guard on line 193: `pos > 0 and name[pos + 1:].isdigit()`.  Python's
`isdigit` is false on the empty string, hence the non-emptiness conjunct. -/
def validBackupName (name : List Char) : Bool :=
  match rfindDash name with
  | some pos =>
      decide (0 < pos) && !(name.drop (pos + 1)).isEmpty
        && (name.drop (pos + 1)).all Char.isDigit
  | none => false

/-- Line 194: `name = name[0:pos]` — the resource name obtained by stripping
the trailing date-stamp suffix at the last `'-'`. -/
def stripStamp (name : List Char) : List Char :=
  match rfindDash name with
  | some pos => name.take pos
  | none => name

/-- `all_images[name].append(entry)` on a Python dict in insertion order:
append to the existing group, or add a new group at the end. -/
def addEntry (m : List (List Char × List Image)) (k : List Char) (e : Image) :
    List (List Char × List Image) :=
  match m with
  | [] => [(k, [e])]
  | (k', es) :: rest =>
    if k' = k then (k', es ++ [e]) :: rest else (k', es) :: addEntry rest k e

/-- The loop of `get_images` (lines 187-197) folded over the response list,
with accumulator `acc` for the dict built so far. -/
def getImagesFrom (acc : List (List Char × List Image)) :
    List RawImage → List (List Char × List Image)
  | [] => acc
  | i :: rest =>
    if i.isPublic = false ∧ validBackupName i.name = true then
      getImagesFrom (addEntry acc (stripStamp i.name) ⟨i.imageId, i.createdAt⟩) rest
    else getImagesFrom acc rest

/-- `get_images` (lines 179-207): the map from resource name to its backup
records, built from the (already server-side filtered) response. -/
def get_images (resp : List RawImage) : List (List Char × List Image) :=
  getImagesFrom [] resp

/-- An entry `e` is recorded under key `k` in the catalog `m`. -/
def entryMem (m : List (List Char × List Image)) (k : List Char) (e : Image) : Prop :=
  ∃ g ∈ m, g.1 = k ∧ e ∈ g.2

/-- The per-instance slice of `lambda_handler` (lines 258-273): look the
instance's name up in the pre-fetched catalog, sort its images ascending by
`created_at` (line 260), decide whether a fresh backup must be created
(lines 267-270), and return (creation decision, the sequence handed to
`BackupSet` on line 272).  The image created by `backup_instance` on
line 270 is not appended to `images`. -/
def pruneInputOf (allImages : List (List Char × List Image)) (name : List Char) :
    List Image :=
  match List.lookup name allImages with
  | some l => List.insertionSort (fun a b : Image => a.createdAt ≤ b.createdAt) l
  | none => []

/-- Lines 267-270: skip creation iff the group is non-empty and its freshest
backup was created today. -/
def createsToday (images : List Image) (today : Int) : Bool :=
  match images.getLast? with
  | some b => !(b.createdAt == today)
  | none => true

def processInstance (allImages : List (List Char × List Image)) (name : List Char)
    (today : Int) : Bool × List Image :=
  (createsToday (pruneInputOf allImages name) today, pruneInputOf allImages name)

theorem agesSorted_of_sorted {today : Int} {l : List Image}
    (h : sortedByCreated l) : agesSorted today l := by
  refine h.imp ?_
  intro a c hac
  simp only [ageOf]
  omega

theorem spanOlder_append_eq (today bound : Int) (l : List Image) :
    (spanOlder today bound l).1 ++ (spanOlder today bound l).2 = l := by
  induction l with
  | nil => simp [spanOlder]
  | cons x xs ih =>
    by_cases h : bound < ageOf today x
    · simp [spanOlder, h, ih]
    · simp [spanOlder, h]

theorem spanOlder_fst_age {today bound : Int} {l : List Image} {e : Image}
    (he : e ∈ (spanOlder today bound l).1) : bound < ageOf today e := by
  induction l with
  | nil => simp [spanOlder] at he
  | cons x xs ih =>
    by_cases h : bound < ageOf today x
    · simp [spanOlder, h] at he
      rcases he with he | he
      · exact he ▸ h
      · exact ih he
    · simp [spanOlder, h] at he

theorem spanOlder_snd_age {today bound : Int} {l : List Image} {e : Image}
    (hs : agesSorted today l) (he : e ∈ (spanOlder today bound l).2) :
    ageOf today e ≤ bound := by
  induction l with
  | nil => simp [spanOlder] at he
  | cons x xs ih =>
    rcases List.pairwise_cons.mp hs with ⟨hx, hxs⟩
    by_cases h : bound < ageOf today x
    · simp [spanOlder, h] at he
      exact ih hxs he
    · simp [spanOlder, h] at he
      rcases he with he | he
      · exact he ▸ not_lt.mp h
      · exact le_trans (hx e he) (not_lt.mp h)

theorem spanOlder_cons_le {today bound : Int} {x : Image} {xs : List Image}
    (h : ageOf today x ≤ bound) :
    spanOlder today bound (x :: xs) = ([], x :: xs) := by
  simp [spanOlder, not_lt.mpr h]

theorem spanOlder_prepend {today bound : Int} {a c : List Image}
    (ha : ∀ e ∈ a, bound < ageOf today e)
    (hc : spanOlder today bound c = ([], c)) :
    spanOlder today bound (a ++ c) = (a, c) := by
  induction a with
  | nil => simpa using hc
  | cons x xs ih =>
    have hx : bound < ageOf today x := ha x (by simp)
    have ih' := ih (fun e he => ha e (by simp [he]))
    simp only [List.cons_append, spanOlder, hx, if_pos, List.append_eq, ih']

theorem pruneCeiling_append_eq (m : Nat) (d today : Int) (l : List Image) :
    (pruneCeiling m d today l).1 ++ (pruneCeiling m d today l).2 = l := by
  induction l with
  | nil => simp [pruneCeiling]
  | cons x xs ih =>
    by_cases h : d < ageOf today x ∧ m ≤ xs.length + 1
    · simp [pruneCeiling, h, ih]
    · simp [pruneCeiling, h]

theorem pruneCeiling_fst_age {m : Nat} {d today : Int} {l : List Image} {e : Image}
    (he : e ∈ (pruneCeiling m d today l).1) : d < ageOf today e := by
  induction l with
  | nil => simp [pruneCeiling] at he
  | cons x xs ih =>
    by_cases h : d < ageOf today x ∧ m ≤ xs.length + 1
    · simp [pruneCeiling, h] at he
      rcases he with he | he
      · exact he ▸ h.1
      · exact ih he
    · simp [pruneCeiling, h] at he

theorem pruneCeiling_cons_le {m : Nat} {d today : Int} {x : Image} {xs : List Image}
    (h : ageOf today x ≤ d) :
    pruneCeiling m d today (x :: xs) = ([], x :: xs) := by
  have hn : ¬ (d < ageOf today x ∧ m ≤ xs.length + 1) := by
    rintro ⟨h1, -⟩
    omega
  simp [pruneCeiling, hn]

theorem pruneCeiling_snd_len {m : Nat} {d today : Int} {l : List Image}
    (h : m - 1 ≤ l.length) : m - 1 ≤ (pruneCeiling m d today l).2.length := by
  induction l with
  | nil => simpa [pruneCeiling] using h
  | cons x xs ih =>
    by_cases hc : d < ageOf today x ∧ m ≤ xs.length + 1
    · have hlen : m - 1 ≤ xs.length := by
        have := hc.2
        omega
      simpa [pruneCeiling, hc] using ih hlen
    · simp only [List.length_cons] at h
      simpa [pruneCeiling, hc] using h

theorem pruneCeiling_stop (m : Nat) (d today : Int) :
    ∀ (l : List Image) (y : Image) (ys : List Image),
      (pruneCeiling m d today l).2 = y :: ys → d < ageOf today y →
      (y :: ys).length < m := by
  intro l
  induction l with
  | nil =>
    intro y ys h
    simp [pruneCeiling] at h
  | cons x xs ih =>
    intro y ys h hy
    by_cases hc : d < ageOf today x ∧ m ≤ xs.length + 1
    · simp [pruneCeiling, hc] at h
      exact ih y ys h hy
    · simp [pruneCeiling, hc] at h
      rcases not_and_or.mp hc with hc1 | hc2
      · exact absurd (h.1 ▸ hy) hc1
      · rw [← h.1, ← h.2]
        simp only [List.length_cons]
        omega

theorem buckets_partition_len (today : Int) :
    ∀ (n : Nat) (l : List Image),
      (buckets today n l).1.length + (buckets today n l).2.length = l.length := by
  intro n
  induction n with
  | zero => intro l; simp [buckets]
  | succ k ih =>
    cases k with
    | zero => intro l; simp [buckets]
    | succ j =>
      intro l
      cases l with
      | nil => simp [buckets]
      | cons x xs =>
        by_cases h : (2:Int) ^ (j+1) < ageOf today x
        · have e1 := congrArg List.length (spanOlder_append_eq today ((2:Int) ^ (j+1)) xs)
          have e2 := ih (spanOlder today ((2:Int) ^ (j+1)) xs).2
          simp only [List.length_append] at e1
          simp only [buckets, if_pos h, List.length_append, List.length_cons]
          omega
        · simp only [buckets, if_neg h]
          exact ih (x :: xs)

theorem buckets_fst_sublist (today : Int) :
    ∀ (n : Nat) (l : List Image), (buckets today n l).1.Sublist l := by
  intro n
  induction n with
  | zero => intro l; simp [buckets]
  | succ k ih =>
    cases k with
    | zero => intro l; simp [buckets]
    | succ j =>
      intro l
      cases l with
      | nil => simp [buckets]
      | cons x xs =>
        by_cases h : (2:Int) ^ (j+1) < ageOf today x
        · simp only [buckets, if_pos h]
          refine List.Sublist.cons₂ x ?_
          refine List.Sublist.trans (ih _) ?_
          have hs := List.sublist_append_right
            (spanOlder today ((2:Int) ^ (j+1)) xs).1 (spanOlder today ((2:Int) ^ (j+1)) xs).2
          rwa [spanOlder_append_eq today ((2:Int) ^ (j+1)) xs] at hs
        · simp only [buckets, if_neg h]
          exact ih (x :: xs)

theorem buckets_snd_sublist (today : Int) :
    ∀ (n : Nat) (l : List Image), (buckets today n l).2.Sublist l := by
  intro n
  induction n with
  | zero => intro l; simp [buckets]
  | succ k ih =>
    cases k with
    | zero => intro l; simp [buckets]
    | succ j =>
      intro l
      cases l with
      | nil => simp [buckets]
      | cons x xs =>
        by_cases h : (2:Int) ^ (j+1) < ageOf today x
        · simp only [buckets, if_pos h]
          refine List.Sublist.cons x ?_
          have h1 := ((ih (spanOlder today ((2:Int) ^ (j+1)) xs).2).append_left
            (spanOlder today ((2:Int) ^ (j+1)) xs).1)
          rwa [spanOlder_append_eq today ((2:Int) ^ (j+1)) xs] at h1
        · simp only [buckets, if_neg h]
          exact ih (x :: xs)

theorem buckets_mem (today : Int) :
    ∀ (n : Nat) (l : List Image) (e : Image), e ∈ l →
      e ∈ (buckets today n l).1 ∨ e ∈ (buckets today n l).2 := by
  intro n
  induction n with
  | zero => intro l e he; simp [buckets, he]
  | succ k ih =>
    cases k with
    | zero => intro l e he; simp [buckets, he]
    | succ j =>
      intro l e he
      cases l with
      | nil => simp at he
      | cons x xs =>
        by_cases h : (2:Int) ^ (j+1) < ageOf today x
        · simp only [buckets, if_pos h, List.mem_cons, List.mem_append]
          rcases List.mem_cons.mp he with he | he
          · exact Or.inl (Or.inl he)
          · rw [← spanOlder_append_eq today ((2:Int) ^ (j+1)) xs] at he
            rcases List.mem_append.mp he with he | he
            · exact Or.inr (Or.inl he)
            · rcases ih _ e he with hk | hr
              · exact Or.inl (Or.inr hk)
              · exact Or.inr (Or.inr hr)
        · simp only [buckets, if_neg h]
          exact ih (x :: xs) e he

theorem buckets_snd_age (today : Int) :
    ∀ (n : Nat) (l : List Image) (e : Image),
      e ∈ (buckets today n l).2 → 2 < ageOf today e := by
  intro n
  induction n with
  | zero => intro l e he; simp [buckets] at he
  | succ k ih =>
    cases k with
    | zero => intro l e he; simp [buckets] at he
    | succ j =>
      intro l e he
      cases l with
      | nil => simp [buckets] at he
      | cons x xs =>
        by_cases h : (2:Int) ^ (j+1) < ageOf today x
        · simp only [buckets, if_pos h, List.mem_append] at he
          rcases he with he | he
          · have h1 := spanOlder_fst_age he
            have h2 : (2:Int) ^ 1 ≤ (2:Int) ^ (j+1) :=
              pow_le_pow_right₀ (by norm_num) (by omega)
            have : (2:Int) ^ 1 = 2 := by norm_num
            omega
          · exact ih _ e he
        · simp only [buckets, if_neg h] at he
          exact ih (x :: xs) e he

theorem inBucket_iff {today : Int} {q : Nat} {e : Image} :
    inBucket today q e = true ↔
      ((2:Int) ^ (q - 1) < ageOf today e ∧ ageOf today e ≤ (2:Int) ^ q) := by
  simp [inBucket]

theorem agesSorted_sublist {today : Int} {l₁ l₂ : List Image}
    (h : l₁.Sublist l₂) (hp : agesSorted today l₂) : agesSorted today l₁ :=
  List.Pairwise.sublist h hp

theorem spanOlder_snd_sublist (today bound : Int) (l : List Image) :
    (spanOlder today bound l).2.Sublist l := by
  have hs := List.sublist_append_right (spanOlder today bound l).1 (spanOlder today bound l).2
  rwa [spanOlder_append_eq] at hs

theorem spanOlder_fst_sublist (today bound : Int) (l : List Image) :
    (spanOlder today bound l).1.Sublist l := by
  have hs := List.sublist_append_left (spanOlder today bound l).1 (spanOlder today bound l).2
  rwa [spanOlder_append_eq] at hs

theorem buckets_uniq (today : Int) :
    ∀ (n : Nat) (l : List Image), agesSorted today l →
      (∀ e ∈ l, ageOf today e ≤ (2:Int) ^ n) →
      ∀ (q : Nat), 2 ≤ q → q ≤ n →
        ((buckets today n l).1.countP (inBucket today q) ≤ 1) ∧
        (∀ e ∈ (buckets today n l).1, inBucket today q e = true →
          e ∈ l ∧ ∀ y ∈ l, inBucket today q y = true →
            ageOf today y ≤ ageOf today e) := by
  intro n
  induction n with
  | zero => intro l _ _ q hq2 hqn; omega
  | succ k ih =>
    cases k with
    | zero => intro l _ _ q hq2 hqn; omega
    | succ j =>
      intro l hsort hbound q hq2 hqn
      cases l with
      | nil =>
        refine ⟨by simp [buckets], ?_⟩
        intro e he
        simp [buckets] at he
      | cons x xs =>
        rcases List.pairwise_cons.mp hsort with ⟨hx, hxs⟩
        by_cases h : (2:Int) ^ (j+1) < ageOf today x
        · -- the head opens bucket j+2: keep it, remove its bucket-mates
          have hs2sub : (spanOlder today ((2:Int) ^ (j+1)) xs).2.Sublist xs :=
            spanOlder_snd_sublist today _ xs
          have hs2sorted : agesSorted today (spanOlder today ((2:Int) ^ (j+1)) xs).2 :=
            agesSorted_sublist hs2sub hxs
          have hs2bound : ∀ e ∈ (spanOlder today ((2:Int) ^ (j+1)) xs).2,
              ageOf today e ≤ (2:Int) ^ (j+1) :=
            fun e he => spanOlder_snd_age hxs he
          have hk1 : ∀ e ∈ (buckets today (j+1) (spanOlder today ((2:Int) ^ (j+1)) xs).2).1,
              ageOf today e ≤ (2:Int) ^ (j+1) :=
            fun e he => hs2bound e ((buckets_fst_sublist today (j+1) _).subset he)
          simp only [buckets, if_pos h]
          rcases Nat.eq_or_lt_of_le hqn with hq | hq
          · subst hq
            have hxin : inBucket today (j+1+1) x = true := by
              rw [inBucket_iff]
              exact ⟨by simpa using h, hbound x (by simp)⟩
            have hKz : (buckets today (j+1)
                (spanOlder today ((2:Int) ^ (j+1)) xs).2).1.countP
                  (inBucket today (j+1+1)) = 0 := by
              rw [List.countP_eq_zero]
              intro e he hin
              rw [inBucket_iff] at hin
              have h1 := hk1 e he
              have h2 := hin.1
              simp only [Nat.add_sub_cancel] at h2
              omega
            constructor
            · simp [List.countP_cons, hKz, hxin]
            · intro e he hin
              rcases List.mem_cons.mp he with rfl | heK
              · refine ⟨by simp, ?_⟩
                intro y hy hyin
                rcases List.mem_cons.mp hy with rfl | hy
                · exact le_refl _
                · exact hx y hy
              · exfalso
                rw [inBucket_iff] at hin
                have h1 := hk1 e heK
                have h2 := hin.1
                simp only [Nat.add_sub_cancel] at h2
                omega
          · -- q ≤ j+1: the head and the dropped run are above bucket q
            have hqle : q ≤ j + 1 := by omega
            have hpow : (2:Int) ^ q ≤ (2:Int) ^ (j+1) :=
              pow_le_pow_right₀ (by norm_num) hqle
            have hxn : inBucket today q x = false := by
              rw [Bool.eq_false_iff]
              intro hxin
              rw [inBucket_iff] at hxin
              have := hxin.2
              omega
            have hdrop : ∀ y ∈ (spanOlder today ((2:Int) ^ (j+1)) xs).1,
                inBucket today q y = false := by
              intro y hy
              rw [Bool.eq_false_iff]
              intro hyin
              rw [inBucket_iff] at hyin
              have h1 := spanOlder_fst_age hy
              have h2 := hyin.2
              omega
            rcases ih (spanOlder today ((2:Int) ^ (j+1)) xs).2 hs2sorted hs2bound
              q hq2 hqle with ⟨ihcnt, ihfirst⟩
            constructor
            · simpa [List.countP_cons, hxn] using ihcnt
            · intro e he hin
              rcases List.mem_cons.mp he with rfl | heK
              · rw [hin] at hxn
                exact absurd hxn (by simp)
              · rcases ihfirst e heK hin with ⟨heS2, hbnd⟩
                refine ⟨List.mem_cons_of_mem x (hs2sub.subset heS2), ?_⟩
                intro y hy hyin
                rcases List.mem_cons.mp hy with rfl | hy
                · rw [hyin] at hxn
                  exact absurd hxn (by simp)
                · rw [← spanOlder_append_eq today ((2:Int) ^ (j+1)) xs] at hy
                  rcases List.mem_append.mp hy with hy | hy
                  · simp [hdrop y hy] at hyin
                  · exact hbnd y hy hyin
        · -- the head is already at or below the bucket boundary: skip level
          have hball : ∀ e ∈ x :: xs, ageOf today e ≤ (2:Int) ^ (j+1) := by
            intro e he
            rcases List.mem_cons.mp he with rfl | he
            · omega
            · have := hx e he
              omega
          simp only [buckets, if_neg h]
          rcases Nat.eq_or_lt_of_le hqn with hq | hq
          · subst hq
            have hKz : ∀ e ∈ (buckets today (j+1) (x :: xs)).1,
                inBucket today (j+1+1) e = false := by
              intro e he
              rw [Bool.eq_false_iff]
              intro hin
              rw [inBucket_iff] at hin
              have h1 := hball e ((buckets_fst_sublist today (j+1) (x :: xs)).subset he)
              have h2 := hin.1
              simp only [Nat.add_sub_cancel] at h2
              omega
            constructor
            · have : (buckets today (j+1) (x :: xs)).1.countP
                  (inBucket today (j+1+1)) = 0 := by
                rw [List.countP_eq_zero]
                intro e he hin
                simp [hKz e he] at hin
              omega
            · intro e he hin
              simp [hKz e he] at hin
          · exact ih (x :: xs) hsort hball q hq2 (by omega)

theorem removeOldBackups_eq {m : Nat} {d today : Int} {imgs : List Image}
    (h : m ≤ imgs.length) :
    removeOldBackups m d today imgs =
      ((spanOlder today ((2:Int) ^ m) (pruneCeiling m d today imgs).2).1
         ++ (buckets today m
              (spanOlder today ((2:Int) ^ m) (pruneCeiling m d today imgs).2).2).1,
       (pruneCeiling m d today imgs).1
         ++ (buckets today m
              (spanOlder today ((2:Int) ^ m) (pruneCeiling m d today imgs).2).2).2) := by
  simp [removeOldBackups, Nat.not_lt.mpr h]

theorem removeOldBackups_snd_sublist (m : Nat) (d today : Int) (imgs : List Image) :
    (removeOldBackups m d today imgs).2.Sublist imgs := by
  by_cases h : imgs.length < m
  · simp [removeOldBackups, h]
  · rw [removeOldBackups_eq (Nat.not_lt.mp h)]
    have h3 : (buckets today m
        (spanOlder today ((2:Int) ^ m) (pruneCeiling m d today imgs).2).2).2.Sublist
        (pruneCeiling m d today imgs).2 := by
      refine (buckets_snd_sublist today m _).trans ?_
      have hs := List.sublist_append_right
        (spanOlder today ((2:Int) ^ m) (pruneCeiling m d today imgs).2).1
        (spanOlder today ((2:Int) ^ m) (pruneCeiling m d today imgs).2).2
      rwa [spanOlder_append_eq] at hs
    have h4 := h3.append_left (pruneCeiling m d today imgs).1
    rwa [pruneCeiling_append_eq] at h4

theorem removeOldBackups_fst_sublist (m : Nat) (d today : Int) (imgs : List Image) :
    (removeOldBackups m d today imgs).1.Sublist imgs := by
  by_cases h : imgs.length < m
  · simp [removeOldBackups, h]
  · rw [removeOldBackups_eq (Nat.not_lt.mp h)]
    have h3 : (buckets today m
        (spanOlder today ((2:Int) ^ m) (pruneCeiling m d today imgs).2).2).1.Sublist
        (spanOlder today ((2:Int) ^ m) (pruneCeiling m d today imgs).2).2 :=
      buckets_fst_sublist today m _
    have h4 := h3.append_left
      (spanOlder today ((2:Int) ^ m) (pruneCeiling m d today imgs).2).1
    rw [spanOlder_append_eq] at h4
    refine h4.trans ?_
    have hs := List.sublist_append_right
      (pruneCeiling m d today imgs).1 (pruneCeiling m d today imgs).2
    rwa [pruneCeiling_append_eq] at hs

theorem removeOldBackups_mem {m : Nat} {d today : Int} {imgs : List Image} {e : Image}
    (he : e ∈ imgs) :
    e ∈ (removeOldBackups m d today imgs).1 ∨ e ∈ (removeOldBackups m d today imgs).2 := by
  by_cases h : imgs.length < m
  · simp [removeOldBackups, h]
    exact he
  · rw [removeOldBackups_eq (Nat.not_lt.mp h)]
    simp only [List.mem_append]
    rw [← pruneCeiling_append_eq m d today imgs] at he
    rcases List.mem_append.mp he with he | he
    · exact Or.inr (Or.inl he)
    · rw [← spanOlder_append_eq today ((2:Int) ^ m) (pruneCeiling m d today imgs).2] at he
      rcases List.mem_append.mp he with he | he
      · exact Or.inl (Or.inl he)
      · rcases buckets_mem today m _ e he with hk | hr
        · exact Or.inl (Or.inr hk)
        · exact Or.inr (Or.inr hr)

theorem removeOldBackups_snd_age {m : Nat} {d today : Int} {imgs : List Image} {e : Image}
    (hd : 2 ≤ d) (he : e ∈ (removeOldBackups m d today imgs).2) :
    2 < ageOf today e := by
  by_cases h : imgs.length < m
  · simp [removeOldBackups, h] at he
  · rw [removeOldBackups_eq (Nat.not_lt.mp h)] at he
    rcases List.mem_append.mp he with he | he
    · have := pruneCeiling_fst_age he
      omega
    · exact buckets_snd_age today m _ e he

/-- C2: with `max_order = 6` and `days_to_keep = 365`, pruning the 12-image
history with ages `[400, 200, 80, 40, 20, 10, 5, 4, 3, 2, 1, 0]` (oldest
first, `today = 1000`) deletes exactly the backups aged 400 and 3 and keeps
exactly those aged 200, 80, 40, 20, 10, 5, 4, 2, 1, 0. -/
theorem C2_concrete_scenario :
    removeOldBackups MAX_ORDER DAYS_TO_KEEP_BACKUPS 1000 sampleImages =
      ([⟨2, 800⟩, ⟨3, 920⟩, ⟨4, 960⟩, ⟨5, 980⟩, ⟨6, 990⟩,
        ⟨7, 995⟩, ⟨8, 996⟩, ⟨10, 998⟩, ⟨11, 999⟩, ⟨12, 1000⟩],
       [⟨1, 600⟩, ⟨9, 997⟩]) := by
  decide

/-- C3: a group with fewer than `max_order` backups is returned untouched by
`remove_old_backups`: the deletion list is empty (the callback is never
invoked) and every backup survives. -/
theorem C3_small_group_untouched (m : Nat) (d today : Int) (imgs : List Image)
    (h : imgs.length < m) : removeOldBackups m d today imgs = (imgs, []) := by
  simp [removeOldBackups, h]

theorem C3_witness :
    removeOldBackups 6 365 1000 [⟨1, 999⟩, ⟨2, 1000⟩] = ([⟨1, 999⟩, ⟨2, 1000⟩], []) :=
  C3_small_group_untouched 6 365 1000 [⟨1, 999⟩, ⟨2, 1000⟩] (by decide)

/-- C4 counterexample: six backups all aged 400 days (today = 1000).  The
absolute-age loop removes the oldest while `len - backup_num >= MAX_ORDER`
still holds, i.e. while exactly `max_order` remain, so after prune only
5 < max_order = 6 backups survive, and the removal was driven by
`age > days_to_keep`. -/
theorem C4_counterexample :
    ((removeOldBackups 6 365 1000
        [⟨1, 600⟩, ⟨2, 600⟩, ⟨3, 600⟩, ⟨4, 600⟩, ⟨5, 600⟩, ⟨6, 600⟩]).1).length = 5 ∧
    (pruneCeiling 6 365 1000
        [⟨1, 600⟩, ⟨2, 600⟩, ⟨3, 600⟩, ⟨4, 600⟩, ⟨5, 600⟩, ⟨6, 600⟩]).1 =
      [⟨1, 600⟩] := by
  decide

/-- C4 (amended): an absolute-age removal (lines 156-158, embedded as
`pruneCeiling`) is performed only while at least `max_order` backups remain
unvisited, so the absolute-age rule never reduces the group below
`max_order - 1` surviving members (it can reach exactly `max_order - 1`):
the removed and surviving counts partition the group, and at least
`max_order - 1` members survive the rule. -/
theorem C4_ceiling_floor (m : Nat) (d today : Int) (imgs : List Image)
    (h : m ≤ imgs.length) :
    (pruneCeiling m d today imgs).1.length + (pruneCeiling m d today imgs).2.length
        = imgs.length ∧
    m - 1 ≤ (pruneCeiling m d today imgs).2.length := by
  constructor
  · have e := congrArg List.length (pruneCeiling_append_eq m d today imgs)
    simpa [List.length_append] using e
  · exact pruneCeiling_snd_len (by omega)

theorem C4_witness :
    (pruneCeiling 6 365 1000
        [⟨1, 600⟩, ⟨2, 600⟩, ⟨3, 600⟩, ⟨4, 600⟩, ⟨5, 600⟩, ⟨6, 600⟩]).1.length +
      (pruneCeiling 6 365 1000
        [⟨1, 600⟩, ⟨2, 600⟩, ⟨3, 600⟩, ⟨4, 600⟩, ⟨5, 600⟩, ⟨6, 600⟩]).2.length = 6 ∧
    5 ≤ (pruneCeiling 6 365 1000
        [⟨1, 600⟩, ⟨2, 600⟩, ⟨3, 600⟩, ⟨4, 600⟩, ⟨5, 600⟩, ⟨6, 600⟩]).2.length :=
  C4_ceiling_floor 6 365 1000
    [⟨1, 600⟩, ⟨2, 600⟩, ⟨3, 600⟩, ⟨4, 600⟩, ⟨5, 600⟩, ⟨6, 600⟩] (by decide)

/-- C6 counterexample: under the policy `max_order = 2`, `days_to_keep = 1`
(legal per the spec's RetentionPolicy: `max_order ≥ 2`, `days_to_keep` an
integer), a backup aged exactly 2 days is deleted by the absolute-age loop,
so "every backup with age ≤ 2 survives under every retention policy" fails. -/
theorem C6_counterexample :
    ageOf 100 ⟨1, 98⟩ ≤ 2 ∧ (⟨1, 98⟩ : Image) ∈ ([⟨1, 98⟩, ⟨2, 98⟩] : List Image) ∧
    (⟨1, 98⟩ : Image) ∉ (removeOldBackups 2 1 100 [⟨1, 98⟩, ⟨2, 98⟩]).1 ∧
    (⟨1, 98⟩ : Image) ∈ (removeOldBackups 2 1 100 [⟨1, 98⟩, ⟨2, 98⟩]).2 := by
  decide

/-- C6 (amended): for every input group and every retention policy whose
`days_to_keep` is at least 2, every backup whose age at call time is at most
2 days survives prune: it is in the kept list, so it is never passed to the
deletion callback.  (Sortedness of the input is not even needed.) -/
theorem C6_recent_tail_survives (m : Nat) (d today : Int) (imgs : List Image)
    (e : Image) (hd : 2 ≤ d) (he : e ∈ imgs) (ha : ageOf today e ≤ 2) :
    e ∈ (removeOldBackups m d today imgs).1 := by
  rcases removeOldBackups_mem he with h | h
  · exact h
  · have := removeOldBackups_snd_age hd h
    omega

theorem C6_witness :
    (⟨12, 1000⟩ : Image) ∈ (removeOldBackups 6 365 1000 sampleImages).1 :=
  C6_recent_tail_survives 6 365 1000 sampleImages ⟨12, 1000⟩
    (by decide) (by decide) (by decide)

/-- C8 counterexample: a sorted group with two backups sharing `created_at`
(both aged 400, today = 1000) followed by five fresh ones.  Both old backups
are removed by the absolute-age loop, so two successive deletion-callback
calls have equal age 400: the ages do not strictly decrease. -/
theorem C8_counterexample :
    (([⟨1, 600⟩, ⟨2, 600⟩, ⟨3, 1000⟩, ⟨4, 1000⟩, ⟨5, 1000⟩, ⟨6, 1000⟩, ⟨7, 1000⟩] :
        List Image).Pairwise (fun a b => a.createdAt ≤ b.createdAt)) ∧
    ¬ (((removeOldBackups 6 365 1000
        [⟨1, 600⟩, ⟨2, 600⟩, ⟨3, 1000⟩, ⟨4, 1000⟩, ⟨5, 1000⟩, ⟨6, 1000⟩, ⟨7, 1000⟩]).2.map
          (ageOf 1000)).Pairwise (· > ·)) := by
  decide

/-- C8 (amended): within one prune run on a group sorted non-decreasing by
`created_at`, the ages of the deletion-callback arguments are non-increasing
across successive calls (the oldest backup is deleted first); they are
strictly decreasing whenever the input is strictly increasing by
`created_at` — ties in `created_at` yield equal successive ages. -/
theorem C8_deletion_order (m : Nat) (d today : Int) (imgs : List Image) :
    (imgs.Pairwise (fun a b => a.createdAt ≤ b.createdAt) →
      ((removeOldBackups m d today imgs).2.map (ageOf today)).Pairwise (· ≥ ·)) ∧
    (imgs.Pairwise (fun a b => a.createdAt < b.createdAt) →
      ((removeOldBackups m d today imgs).2.map (ageOf today)).Pairwise (· > ·)) := by
  constructor
  · intro hs
    rw [List.pairwise_map]
    refine List.Pairwise.sublist (removeOldBackups_snd_sublist m d today imgs) ?_
    refine hs.imp ?_
    intro a b h
    simp only [ageOf, ge_iff_le]
    omega
  · intro hs
    rw [List.pairwise_map]
    refine List.Pairwise.sublist (removeOldBackups_snd_sublist m d today imgs) ?_
    refine hs.imp ?_
    intro a b h
    simp only [ageOf, gt_iff_lt]
    omega

theorem C8_witness :
    ((removeOldBackups 6 365 1000 sampleImages).2.map (ageOf 1000)).Pairwise (· ≥ ·) ∧
    ((removeOldBackups 6 365 1000 sampleImages).2.map (ageOf 1000)).Pairwise (· > ·) :=
  ⟨(C8_deletion_order 6 365 1000 sampleImages).1 (by decide),
   (C8_deletion_order 6 365 1000 sampleImages).2 (by decide)⟩

/-- C9: the engine is total on every finite group — the embedding is
structurally recursive (the cursor suffix strictly shrinks at every
iteration of each while loop, and the bucket pass counts `n` down from
`max_order` to 2, at most `max_order - 1` levels) — and every backup is
decided exactly once: the kept and removed lists partition the input by
count. -/
theorem C9_terminates_partition (m : Nat) (d today : Int) (imgs : List Image) :
    (removeOldBackups m d today imgs).1.length
      + (removeOldBackups m d today imgs).2.length = imgs.length := by
  by_cases h : imgs.length < m
  · simp [removeOldBackups, h]
  · rw [removeOldBackups_eq (Nat.not_lt.mp h)]
    have e1 := congrArg List.length (pruneCeiling_append_eq m d today imgs)
    have e2 := congrArg List.length
      (spanOlder_append_eq today ((2:Int) ^ m) (pruneCeiling m d today imgs).2)
    have e3 := buckets_partition_len today m
      (spanOlder today ((2:Int) ^ m) (pruneCeiling m d today imgs).2).2
    simp only [List.length_append] at e1 e2 ⊢
    omega

/-- C1 counterexample: a 2-element group (fewer than `max_order` backups) is
returned untouched by prune, and both of its backups (ages 4 and 3 with
`today = 100`) lie in the bucket `(2, 4]`, so two surviving backups share
one bucket interval. -/
theorem C1_counterexample :
    ((removeOldBackups MAX_ORDER DAYS_TO_KEEP_BACKUPS 100
        [⟨1, 96⟩, ⟨2, 97⟩]).1.countP (inBucket 100 2)) = 2 := by
  decide

/-- C1 (amended): for every input sequence sorted ascending by `created_at`
that has at least `max_order` backups, after prune (with the program's policy
`max_order = 6`, `days_to_keep = 365`), for every `n` in `[2, max_order]` at
most one surviving backup has age in `(2^(n-1), 2^n]`, and a survivor of that
interval is the oldest original member of the interval (its `created_at` is
minimal among the members).  The restriction to groups of at least
`max_order` backups is forced by the counterexample: smaller groups are
returned untouched. -/
theorem C1_bucket_uniqueness (today : Int) (imgs : List Image) (n : Nat)
    (hs : imgs.Pairwise (fun a b => a.createdAt ≤ b.createdAt))
    (hlen : MAX_ORDER ≤ imgs.length) (h2 : 2 ≤ n) (h6 : n ≤ MAX_ORDER) :
    ((removeOldBackups MAX_ORDER DAYS_TO_KEEP_BACKUPS today imgs).1.countP
        (inBucket today n) ≤ 1) ∧
    (∀ e ∈ (removeOldBackups MAX_ORDER DAYS_TO_KEEP_BACKUPS today imgs).1,
      inBucket today n e = true →
        e ∈ imgs ∧ ∀ y ∈ imgs, inBucket today n y = true →
          e.createdAt ≤ y.createdAt) := by
  have hages : agesSorted today imgs := agesSorted_of_sorted hs
  have hrest1sub : (pruneCeiling MAX_ORDER DAYS_TO_KEEP_BACKUPS today imgs).2.Sublist imgs := by
    have hsr := List.sublist_append_right
      (pruneCeiling MAX_ORDER DAYS_TO_KEEP_BACKUPS today imgs).1
      (pruneCeiling MAX_ORDER DAYS_TO_KEEP_BACKUPS today imgs).2
    rwa [pruneCeiling_append_eq] at hsr
  have hrest1sorted : agesSorted today
      (pruneCeiling MAX_ORDER DAYS_TO_KEEP_BACKUPS today imgs).2 :=
    agesSorted_sublist hrest1sub hages
  have hS2sub := spanOlder_snd_sublist today ((2:Int) ^ MAX_ORDER)
    (pruneCeiling MAX_ORDER DAYS_TO_KEEP_BACKUPS today imgs).2
  have hS2sorted : agesSorted today
      (spanOlder today ((2:Int) ^ MAX_ORDER)
        (pruneCeiling MAX_ORDER DAYS_TO_KEEP_BACKUPS today imgs).2).2 :=
    agesSorted_sublist hS2sub hrest1sorted
  have hS2bound : ∀ e ∈ (spanOlder today ((2:Int) ^ MAX_ORDER)
      (pruneCeiling MAX_ORDER DAYS_TO_KEEP_BACKUPS today imgs).2).2,
      ageOf today e ≤ (2:Int) ^ MAX_ORDER :=
    fun e he => spanOlder_snd_age hrest1sorted he
  have hpow : (2:Int) ^ n ≤ (2:Int) ^ MAX_ORDER :=
    pow_le_pow_right₀ (by norm_num) h6
  have h64 : (2:Int) ^ MAX_ORDER ≤ DAYS_TO_KEEP_BACKUPS := by
    norm_num [MAX_ORDER, DAYS_TO_KEEP_BACKUPS]
  have hS1notin : ∀ e ∈ (spanOlder today ((2:Int) ^ MAX_ORDER)
      (pruneCeiling MAX_ORDER DAYS_TO_KEEP_BACKUPS today imgs).2).1,
      inBucket today n e = false := by
    intro e he
    rw [Bool.eq_false_iff]
    intro hin
    rw [inBucket_iff] at hin
    have h1 := spanOlder_fst_age he
    have h2' := hin.2
    omega
  have hR1notin : ∀ e ∈ (pruneCeiling MAX_ORDER DAYS_TO_KEEP_BACKUPS today imgs).1,
      inBucket today n e = false := by
    intro e he
    rw [Bool.eq_false_iff]
    intro hin
    rw [inBucket_iff] at hin
    have h1 := pruneCeiling_fst_age he
    have h2' := hin.2
    omega
  rcases buckets_uniq today MAX_ORDER _ hS2sorted hS2bound n h2 h6 with ⟨hcnt, hfirst⟩
  rw [removeOldBackups_eq hlen]
  constructor
  · rw [List.countP_append]
    have hz : (spanOlder today ((2:Int) ^ MAX_ORDER)
        (pruneCeiling MAX_ORDER DAYS_TO_KEEP_BACKUPS today imgs).2).1.countP
        (inBucket today n) = 0 := by
      rw [List.countP_eq_zero]
      intro e he hin
      simp [hS1notin e he] at hin
    omega
  · intro e he hin
    rcases List.mem_append.mp he with he | he
    · simp [hS1notin e he] at hin
    · rcases hfirst e he hin with ⟨heS2, hbnd⟩
      refine ⟨(hS2sub.trans hrest1sub).subset heS2, ?_⟩
      intro y hy hyin
      rw [← pruneCeiling_append_eq MAX_ORDER DAYS_TO_KEEP_BACKUPS today imgs] at hy
      rcases List.mem_append.mp hy with hy | hy
      · simp [hR1notin y hy] at hyin
      · rw [← spanOlder_append_eq today ((2:Int) ^ MAX_ORDER)
          (pruneCeiling MAX_ORDER DAYS_TO_KEEP_BACKUPS today imgs).2] at hy
        rcases List.mem_append.mp hy with hy | hy
        · simp [hS1notin y hy] at hyin
        · have := hbnd y hy hyin
          simp only [ageOf] at this
          omega

theorem C1_witness :
    ((removeOldBackups MAX_ORDER DAYS_TO_KEEP_BACKUPS 1000 sampleImages).1.countP
        (inBucket 1000 2) ≤ 1) ∧
    (∀ e ∈ (removeOldBackups MAX_ORDER DAYS_TO_KEEP_BACKUPS 1000 sampleImages).1,
      inBucket 1000 2 e = true →
        e ∈ sampleImages ∧ ∀ y ∈ sampleImages, inBucket 1000 2 y = true →
          e.createdAt ≤ y.createdAt) :=
  C1_bucket_uniqueness 1000 sampleImages 2 (by decide) (by decide) (by decide) (by decide)

theorem spanOlder_eq_nil_of_all {today bound : Int} {l : List Image}
    (h : ∀ e ∈ l, ageOf today e ≤ bound) : spanOlder today bound l = ([], l) := by
  cases l with
  | nil => rfl
  | cons x xs => exact spanOlder_cons_le (h x (by simp))

theorem pruneCeiling_eq_nil_of_all {m : Nat} {d today : Int} {l : List Image}
    (h : ∀ e ∈ l, ageOf today e ≤ d) : pruneCeiling m d today l = ([], l) := by
  cases l with
  | nil => rfl
  | cons x xs => exact pruneCeiling_cons_le (h x (by simp))

theorem buckets_idem (today : Int) :
    ∀ (n : Nat) (l : List Image), agesSorted today l →
      (∀ e ∈ l, ageOf today e ≤ (2:Int) ^ n) →
      buckets today n ((buckets today n l).1) = ((buckets today n l).1, []) := by
  intro n
  induction n with
  | zero => intro l _ _; simp [buckets]
  | succ k ih =>
    cases k with
    | zero => intro l _ _; simp [buckets]
    | succ j =>
      intro l hsort hbound
      cases l with
      | nil => simp [buckets]
      | cons x xs =>
        rcases List.pairwise_cons.mp hsort with ⟨hx, hxs⟩
        by_cases h : (2:Int) ^ (j+1) < ageOf today x
        · -- first run keeps x and hands the tail of its bucket run down
          have hs2sub : (spanOlder today ((2:Int) ^ (j+1)) xs).2.Sublist xs :=
            spanOlder_snd_sublist today _ xs
          have hs2sorted : agesSorted today (spanOlder today ((2:Int) ^ (j+1)) xs).2 :=
            agesSorted_sublist hs2sub hxs
          have hs2bound : ∀ e ∈ (spanOlder today ((2:Int) ^ (j+1)) xs).2,
              ageOf today e ≤ (2:Int) ^ (j+1) :=
            fun e he => spanOlder_snd_age hxs he
          have hk1bound : ∀ e ∈ (buckets today (j+1)
              (spanOlder today ((2:Int) ^ (j+1)) xs).2).1,
              ageOf today e ≤ (2:Int) ^ (j+1) :=
            fun e he => hs2bound e ((buckets_fst_sublist today (j+1) _).subset he)
          have hspan : spanOlder today ((2:Int) ^ (j+1))
              ((buckets today (j+1) (spanOlder today ((2:Int) ^ (j+1)) xs).2).1) =
              ([], (buckets today (j+1) (spanOlder today ((2:Int) ^ (j+1)) xs).2).1) :=
            spanOlder_eq_nil_of_all hk1bound
          have hidem := ih (spanOlder today ((2:Int) ^ (j+1)) xs).2 hs2sorted hs2bound
          simp only [buckets, if_pos h, hspan, hidem]
          simp
        · have hball : ∀ e ∈ x :: xs, ageOf today e ≤ (2:Int) ^ (j+1) := by
            intro e he
            rcases List.mem_cons.mp he with rfl | he
            · omega
            · have := hx e he
              omega
          have hidem := ih (x :: xs) hsort hball
          simp only [buckets, if_neg h]
          rcases hK : (buckets today (j+1) (x :: xs)).1 with _ | ⟨y, ys⟩
          · simp [buckets]
          · have hy : ageOf today y ≤ (2:Int) ^ (j+1) := by
              refine hball y ((buckets_fst_sublist today (j+1) (x :: xs)).subset ?_)
              rw [hK]
              simp
            simp only [buckets, if_neg (not_lt.mpr hy)]
            rw [← hK]
            exact hidem

/-- C7: prune is idempotent: re-running `remove_old_backups` with the same
`today` and the same policy on the survivors of a first run removes nothing
and keeps every survivor. -/
theorem C7_idempotent (m : Nat) (d today : Int) (imgs : List Image)
    (hs : imgs.Pairwise (fun a b => a.createdAt ≤ b.createdAt)) :
    removeOldBackups m d today ((removeOldBackups m d today imgs).1)
      = ((removeOldBackups m d today imgs).1, []) := by
  have hages : agesSorted today imgs := agesSorted_of_sorted hs
  by_cases h0 : imgs.length < m
  · simp [removeOldBackups, h0]
  · have hlen : m ≤ imgs.length := Nat.not_lt.mp h0
    have hkeq : (removeOldBackups m d today imgs).1 =
        (spanOlder today ((2:Int) ^ m) (pruneCeiling m d today imgs).2).1
          ++ (buckets today m (spanOlder today ((2:Int) ^ m)
               (pruneCeiling m d today imgs).2).2).1 := by
      rw [removeOldBackups_eq hlen]
    have hrest1sub : (pruneCeiling m d today imgs).2.Sublist imgs := by
      have hsr := List.sublist_append_right
        (pruneCeiling m d today imgs).1 (pruneCeiling m d today imgs).2
      rwa [pruneCeiling_append_eq] at hsr
    have hrest1sorted : agesSorted today (pruneCeiling m d today imgs).2 :=
      agesSorted_sublist hrest1sub hages
    have hS2sub := spanOlder_snd_sublist today ((2:Int) ^ m)
      (pruneCeiling m d today imgs).2
    have hS2sorted : agesSorted today
        (spanOlder today ((2:Int) ^ m) (pruneCeiling m d today imgs).2).2 :=
      agesSorted_sublist hS2sub hrest1sorted
    have hS2bound : ∀ e ∈ (spanOlder today ((2:Int) ^ m)
        (pruneCeiling m d today imgs).2).2, ageOf today e ≤ (2:Int) ^ m :=
      fun e he => spanOlder_snd_age hrest1sorted he
    have hKsub : (buckets today m (spanOlder today ((2:Int) ^ m)
        (pruneCeiling m d today imgs).2).2).1.Sublist
        (spanOlder today ((2:Int) ^ m) (pruneCeiling m d today imgs).2).2 :=
      buckets_fst_sublist today m _
    have hKbound : ∀ e ∈ (buckets today m (spanOlder today ((2:Int) ^ m)
        (pruneCeiling m d today imgs).2).2).1, ageOf today e ≤ (2:Int) ^ m :=
      fun e he => hS2bound e (hKsub.subset he)
    have hS1age : ∀ e ∈ (spanOlder today ((2:Int) ^ m)
        (pruneCeiling m d today imgs).2).1, (2:Int) ^ m < ageOf today e :=
      fun e he => spanOlder_fst_age he
    have hkept_sub_rest1 : ((spanOlder today ((2:Int) ^ m)
        (pruneCeiling m d today imgs).2).1
          ++ (buckets today m (spanOlder today ((2:Int) ^ m)
               (pruneCeiling m d today imgs).2).2).1).Sublist
        (pruneCeiling m d today imgs).2 := by
      have h1 := hKsub.append_left
        (spanOlder today ((2:Int) ^ m) (pruneCeiling m d today imgs).2).1
      rwa [spanOlder_append_eq] at h1
    rw [hkeq]
    by_cases hk : ((spanOlder today ((2:Int) ^ m)
        (pruneCeiling m d today imgs).2).1
          ++ (buckets today m (spanOlder today ((2:Int) ^ m)
               (pruneCeiling m d today imgs).2).2).1).length < m
    · simp only [removeOldBackups]
      rw [if_pos hk]
    · have hklen := Nat.not_lt.mp hk
      have hrest1len : m ≤ (pruneCeiling m d today imgs).2.length :=
        le_trans hklen hkept_sub_rest1.length_le
      have hkeptD : ∀ e ∈ (spanOlder today ((2:Int) ^ m)
          (pruneCeiling m d today imgs).2).1
            ++ (buckets today m (spanOlder today ((2:Int) ^ m)
                 (pruneCeiling m d today imgs).2).2).1, ageOf today e ≤ d := by
        rcases hr : (pruneCeiling m d today imgs).2 with _ | ⟨y, ys⟩
        · intro e he
          rw [hr, List.sublist_nil] at hkept_sub_rest1
          rw [hkept_sub_rest1] at he
          simp at he
        · rw [hr] at hkept_sub_rest1
          have hyD : ageOf today y ≤ d := by
            by_contra hyD
            have hstop := pruneCeiling_stop m d today imgs y ys hr (not_le.mp hyD)
            rw [hr] at hrest1len
            omega
          have hsorted' := hrest1sorted
          rw [hr] at hsorted'
          rcases List.pairwise_cons.mp hsorted' with ⟨hy', -⟩
          intro e he
          have hmem := hkept_sub_rest1.subset he
          rcases List.mem_cons.mp hmem with rfl | hmem
          · exact hyD
          · exact le_trans (hy' e hmem) hyD
      have hprune2 := pruneCeiling_eq_nil_of_all (m := m) hkeptD
      have hspan2 : spanOlder today ((2:Int) ^ m)
          ((spanOlder today ((2:Int) ^ m) (pruneCeiling m d today imgs).2).1
            ++ (buckets today m (spanOlder today ((2:Int) ^ m)
                 (pruneCeiling m d today imgs).2).2).1) =
          ((spanOlder today ((2:Int) ^ m) (pruneCeiling m d today imgs).2).1,
           (buckets today m (spanOlder today ((2:Int) ^ m)
                (pruneCeiling m d today imgs).2).2).1) :=
        spanOlder_prepend hS1age (spanOlder_eq_nil_of_all hKbound)
      have hidem := buckets_idem today m
        (spanOlder today ((2:Int) ^ m) (pruneCeiling m d today imgs).2).2
        hS2sorted hS2bound
      rw [removeOldBackups_eq hklen, hprune2]
      simp [hspan2, hidem]

theorem C7_witness :
    removeOldBackups 6 365 1000 ((removeOldBackups 6 365 1000 sampleImages).1)
      = ((removeOldBackups 6 365 1000 sampleImages).1, []) :=
  C7_idempotent 6 365 1000 sampleImages (by decide)

theorem processInstance_snd (allImages : List (List Char × List Image))
    (name : List Char) (today : Int) :
    (processInstance allImages name today).2 = pruneInputOf allImages name := rfl

/-- C5 counterexample: a catalog listing with one resource whose only backup
was created yesterday (`created_at = 99`, `today = 100`).  The orchestrator
decides to create a backup (first component `true`), yet the sequence passed
to the retention engine contains no backup with `created_at = today`: the
just-created backup is not part of it. -/
theorem C5_counterexample :
    (processInstance [(['w'], [⟨1, 99⟩])] ['w'] 100).1 = true ∧
    ∀ b ∈ (processInstance [(['w'], [⟨1, 99⟩])] ['w'] 100).2, b.createdAt ≠ 100 := by
  decide

/-- C5 (amended): the sequence handed to the retention engine for a resource
is exactly the resource's group in the catalog listing taken at the start of
the invocation (sorted ascending by `created_at`): an image belongs to the
passed sequence iff it belongs to the listed group.  In particular a backup
created during the same invocation, absent from that listing, is not
included. -/
theorem C5_prune_input (allImages : List (List Char × List Image))
    (name : List Char) (today : Int) (l : List Image)
    (h : List.lookup name allImages = some l) :
    ∀ b : Image, b ∈ (processInstance allImages name today).2 ↔ b ∈ l := by
  intro b
  have hin : pruneInputOf allImages name =
      List.insertionSort (fun a b : Image => a.createdAt ≤ b.createdAt) l := by
    simp [pruneInputOf, h]
  rw [processInstance_snd, hin]
  exact (List.perm_insertionSort (fun a b : Image => a.createdAt ≤ b.createdAt) l).mem_iff

theorem C5_witness :
    (⟨1, 99⟩ : Image) ∈ (processInstance [(['w'], [⟨1, 99⟩])] ['w'] 100).2 ↔
      (⟨1, 99⟩ : Image) ∈ [(⟨1, 99⟩ : Image)] :=
  C5_prune_input [(['w'], [⟨1, 99⟩])] ['w'] 100 [⟨1, 99⟩] (by decide) ⟨1, 99⟩

theorem entryMem_cons (g : List Char × List Image)
    (rest : List (List Char × List Image)) (k : List Char) (e : Image) :
    entryMem (g :: rest) k e ↔ (g.1 = k ∧ e ∈ g.2) ∨ entryMem rest k e := by
  simp [entryMem]

theorem addEntry_cons_eq (k0 : List Char) (es : List Image)
    (rest : List (List Char × List Image)) (e' : Image) :
    addEntry ((k0, es) :: rest) k0 e' = (k0, es ++ [e']) :: rest := by
  simp [addEntry]

theorem addEntry_cons_ne {k0 k' : List Char} (hk : k0 ≠ k') (es : List Image)
    (rest : List (List Char × List Image)) (e' : Image) :
    addEntry ((k0, es) :: rest) k' e' = (k0, es) :: addEntry rest k' e' := by
  simp [addEntry, hk]

theorem entryMem_addEntry (m : List (List Char × List Image)) (k' : List Char)
    (e' : Image) (k : List Char) (e : Image) :
    entryMem (addEntry m k' e') k e ↔ (k' = k ∧ e = e') ∨ entryMem m k e := by
  induction m with
  | nil =>
    simp [addEntry, entryMem]
  | cons g rest ih =>
    obtain ⟨k0, es⟩ := g
    by_cases hk0 : k0 = k'
    · subst hk0
      rw [addEntry_cons_eq, entryMem_cons, entryMem_cons]
      simp only [List.mem_append, List.mem_singleton]
      tauto
    · rw [addEntry_cons_ne hk0, entryMem_cons, entryMem_cons, ih]
      tauto

theorem entryMem_getImagesFrom (resp : List RawImage) :
    ∀ (acc : List (List Char × List Image)) (k : List Char) (e : Image),
      entryMem (getImagesFrom acc resp) k e ↔
        (entryMem acc k e ∨ ∃ i ∈ resp, i.isPublic = false ∧
          validBackupName i.name = true ∧ stripStamp i.name = k ∧
          e = ⟨i.imageId, i.createdAt⟩) := by
  induction resp with
  | nil =>
    intro acc k e
    simp [getImagesFrom]
  | cons i rest ih =>
    intro acc k e
    by_cases hc : i.isPublic = false ∧ validBackupName i.name = true
    · simp only [getImagesFrom, if_pos hc]
      rw [ih, entryMem_addEntry]
      simp only [List.exists_mem_cons_iff, hc.1, hc.2]
      simp
      tauto
    · simp only [getImagesFrom, if_neg hc]
      rw [ih]
      simp only [List.exists_mem_cons_iff]
      have hni : ¬(i.isPublic = false ∧ validBackupName i.name = true ∧
          stripStamp i.name = k ∧ e = ⟨i.imageId, i.createdAt⟩) := by
        rintro ⟨h1, h2, -, -⟩
        exact hc ⟨h1, h2⟩
      tauto

/-- C10: the catalog built by `get_images` records an image under a resource
group iff the source record is non-public and its name passes the check of
line 193 — the last `'-'` sits at a position greater than 0 and the (then
non-empty) suffix after it is all digits — and in that case it is grouped
under the name truncated at that `'-'`; every other response record appears
in no group at all, so the retention engine never sees it. -/
theorem C10_catalog_inclusion (resp : List RawImage) (k : List Char) (e : Image) :
    entryMem (get_images resp) k e ↔
      ∃ i ∈ resp, i.isPublic = false ∧ validBackupName i.name = true ∧
        stripStamp i.name = k ∧ e = ⟨i.imageId, i.createdAt⟩ := by
  rw [get_images, entryMem_getImagesFrom]
  simp [entryMem]

end AmiBackup
